import Mathlib

/-!
Verification of the PentaCodec symbol codec (SymbolCodec.c).

The codec assigns 5-bit or 10-bit "penta" codes to eligible ASCII
characters, packs them into a 64-bit accumulator, encodes short runs as
32-bit ciphers and reads the tagged variable-length wire form.  The
definitions below are a shallow embedding of the source: the character
tables are built by the same loops as initSymbolCodec, and encodePenta,
decodeCipher, encode and readSymbol follow the source line by line.
Machine integers are modelled as Nat (with explicit mod 2^w where the
source can overflow) and Int for the signed reads.
-/

set_option maxRecDepth 8000

namespace SymbolCodec

/-- Error codes used by the codec (dx_result_t error causes in the source). -/
inductive DxError where
  | illegalArgument
  | internalError
  deriving DecidableEq

/-- The three global character tables: pentas, plength and characters.
Modelled as functions out of Nat; the source uses C arrays of sizes 128,
128 and 1024 and only ever indexes them in range. -/
structure Tables where
  pentas : Nat → Nat
  plength : Nat → Nat
  characters : Nat → Nat

/-- Pointwise update of a table, modelling an array store. -/
def upd (f : Nat → Nat) (i v : Nat) : Nat → Nat :=
  fun j => if j = i then v else f j

/-- Body of initPenta: pentas[c] = _penta; plength[c] = _plen; characters[_penta] = c. -/
def initPenta (t : Tables) (c p l : Nat) : Tables :=
  { pentas := upd t.pentas c p
    plength := upd t.plength c l
    characters := upd t.characters p c }

/-- Tables right after the clearing loops of initSymbolCodec: every plength
entry is 64, every pentas and characters entry is 0. -/
def initState : Tables :=
  { pentas := fun _ => 0, plength := fun _ => 64, characters := fun _ => 0 }

/-- Tables after the loop assigning pentas 1..26 to the characters A..Z
(codes 65..90), each of length 5. -/
def afterLetters : Tables :=
  (List.range' 65 26).foldl (fun t i => initPenta t i (i - 65 + 1) 5) initState

/-- Tables after the three punctuation assignments: code 46 (dot) to penta 27,
code 47 (slash) to penta 28, code 36 (dollar) to penta 29, each of length 5. -/
def afterPunct : Tables :=
  initPenta (initPenta (initPenta afterLetters 46 27 5) 47 28 5) 36 29 5

/-- The 10-bit assignment loop over codes 32..126: every code whose pentas
entry is still 0 and which is neither 39 (apostrophe) nor 96 (backtick)
receives the next 10-bit penta, starting at 0x3C0.  Returns the final tables
together with the final value of the penta counter. -/
def tenBitLoop : Tables × Nat :=
  (List.range' 32 95).foldl
    (fun tp i =>
      if tp.1.pentas i = 0 ∧ i ≠ 39 ∧ i ≠ 96 then (initPenta tp.1 i tp.2 10, tp.2 + 1)
      else tp)
    (afterPunct, 0x3C0)

/-- The fully initialized tables (the global state after initSymbolCodec). -/
def tables : Tables := tenBitLoop.1

/-- Final value of the local penta counter of initSymbolCodec. -/
def initNext : Nat := tenBitLoop.2

/-- Lookup in the global pentas array. -/
def pentas (c : Nat) : Nat := tables.pentas c

/-- Lookup in the global plength array. -/
def plength (c : Nat) : Nat := tables.plength c

/-- Lookup in the global characters array. -/
def characters (p : Nat) : Nat := tables.characters p

/-- Result of initSymbolCodec: an internal error when the counter did not
end at 0x400, otherwise success (the populated tables). -/
def initSymbolCodec : Except DxError Tables :=
  if initNext ≠ 0x400 then Except.error DxError.internalError else Except.ok tables

/-- Encodes penta into cipher (encodePenta in the source).  The argument
penta is the 64-bit accumulator as a Nat, plen its bit length.  The casts
to jInt are modelled with mod 2^32, the bitwise and with 0x3FFFFFFF as
mod 2^30, and the 32-bit additions reduce mod 2^32. -/
def encodePenta (penta plen : Nat) : Nat :=
  if plen ≤ 30 then (penta % 2 ^ 32 + 0x40000000) % 2 ^ 32
  else if (penta >>> 30) % 2 ^ 32 = pentas 47 then (penta % 2 ^ 30 + 0x80000000) % 2 ^ 32
  else if (penta >>> 30) % 2 ^ 32 = pentas 36 then (penta % 2 ^ 30 + 0xC0000000) % 2 ^ 32
  else 0

/-- Decodes cipher into penta code (decodeCipher in the source).  The switch
on the unsigned top two bits is a match on cipher >>> 30; the and with
0x3FFFFFFF is mod 2^30. -/
def decodeCipher (cipher : Nat) : Except DxError Nat :=
  if cipher >>> 30 = 0 then Except.error DxError.illegalArgument
  else if cipher >>> 30 = 1 then Except.ok (cipher % 2 ^ 30)
  else if cipher >>> 30 = 2 then Except.ok ((pentas 47) <<< 30 + cipher % 2 ^ 30)
  else if cipher >>> 30 = 3 then Except.ok ((pentas 36) <<< 30 + cipher % 2 ^ 30)
  else Except.error DxError.internalError

/-- Character loop of encode: for each UTF-16 unit c, return none on
c >= 128 (the source returns 0 there), otherwise shift the accumulator left
by plength c and add pentas c.  Java long shifts mask the shift count to
6 bits and wrap mod 2^64; the int plen accumulates without overflow. -/
def encodeLoop : List Nat → Nat → Nat → Option (Nat × Nat)
  | [], penta, plen => some (penta, plen)
  | c :: rest, penta, plen =>
    if 128 ≤ c then none
    else encodeLoop rest ((penta <<< (plength c % 64) + pentas c) % 2 ^ 64) (plen + plength c)

/-- Encodes a symbol into a cipher (encode in the source).  A null string
gives 0, more than 7 characters give 0, a character at or above 128 gives 0,
a packed length above 35 gives 0, and otherwise the packed run goes through
encodePenta. -/
def encode (symbol : Option (List Nat)) : Nat :=
  match symbol with
  | none => 0
  | some s =>
    if 7 < s.length then 0
    else
      match encodeLoop s 0 0 with
      | none => 0
      | some (penta, plen) => if 35 < plen then 0 else encodePenta penta plen

/-- The character tables at static-initialization time: the global arrays
have static storage, so the C runtime zero-initializes them, and
initSymbolCodec has not yet run when the initializer of the global
WILDCARD_CIPHER is evaluated. -/
def staticTables : Tables :=
  { pentas := fun _ => 0, plength := fun _ => 0, characters := fun _ => 0 }

/-- Body of encodePenta as evaluated at static-initialization time: the
same code, but the table reads pentas[47] and pentas[36] see the
zero-initialized globals. -/
def encodePentaStatic (penta plen : Nat) : Nat :=
  if plen ≤ 30 then (penta % 2 ^ 32 + 0x40000000) % 2 ^ 32
  else if (penta >>> 30) % 2 ^ 32 = staticTables.pentas 47 then
    (penta % 2 ^ 30 + 0x80000000) % 2 ^ 32
  else if (penta >>> 30) % 2 ^ 32 = staticTables.pentas 36 then
    (penta % 2 ^ 30 + 0xC0000000) % 2 ^ 32
  else 0

/-- Character loop of encode as evaluated at static-initialization time:
the same code over the zero-initialized tables. -/
def encodeLoopStatic : List Nat → Nat → Nat → Option (Nat × Nat)
  | [], penta, plen => some (penta, plen)
  | c :: rest, penta, plen =>
    if 128 ≤ c then none
    else encodeLoopStatic rest
      ((penta <<< (staticTables.plength c % 64) + staticTables.pentas c) % 2 ^ 64)
      (plen + staticTables.plength c)

/-- Body of encode as evaluated at static-initialization time. -/
def encodeStatic (symbol : Option (List Nat)) : Nat :=
  match symbol with
  | none => 0
  | some s =>
    if 7 < s.length then 0
    else
      match encodeLoopStatic s 0 0 with
      | none => 0
      | some (penta, plen) => if 35 < plen then 0 else encodePentaStatic penta plen

/-- The global WILDCARD_CIPHER.  Its initializer, encode of the star
symbol (code 42), is evaluated at static-initialization time, before
initSymbolCodec populates the tables, and initSymbolCodec never
reassigns the global; the source comment (need initialize in init
function) records the missing reassignment.  The value the program holds
is therefore encode of the star over the zero-initialized tables. -/
def WILDCARD_CIPHER : Nat := encodeStatic (some [42])

/-- Bit-length recovery loop of readSymbol and of the spec for decode:
starting from acc, grow by 5 until penta >>> acc is 0.  plenOf penta 0 is
the smallest multiple of 5 with penta >>> plen = 0. -/
def plenOf (penta acc : Nat) : Nat :=
  if h : penta >>> acc = 0 then acc else plenOf penta (acc + 5)
termination_by penta >>> acc
decreasing_by
  simp only [Nat.shiftRight_eq_div_pow] at *
  rw [pow_add, ← Nat.div_div_eq_div_mul]
  exact Nat.div_lt_self (Nat.pos_of_ne_zero h) (by norm_num)

/-- Modelled from the spec: penta_to_string is not part of the sources
(readSymbol refers to a toString helper defined elsewhere).  Peel 5-bit or
10-bit groups from the top of the plen-bit value; a 5-bit group of 30 or 31
is the escape mark of a 10-bit penta, every group maps through characters,
and an unused table entry (characters value 0) fails. -/
def pentaToString (penta plen : Nat) : Option (List Nat) :=
  if plen = 0 then some []
  else if plen < 5 then none
  else
    if (penta >>> (plen - 5)) % 32 < 30 then
      if characters ((penta >>> (plen - 5)) % 32) = 0 then none
      else
        (pentaToString (penta % 2 ^ (plen - 5)) (plen - 5)).map
          (fun r => characters ((penta >>> (plen - 5)) % 32) :: r)
    else
      if plen < 10 then none
      else
        if characters ((penta >>> (plen - 10)) % 1024) = 0 then none
        else
          (pentaToString (penta % 2 ^ (plen - 10)) (plen - 10)).map
            (fun r => characters ((penta >>> (plen - 10)) % 1024) :: r)
termination_by plen
decreasing_by all_goals omega

/-- Modelled from the spec: the toString helper used by the fallback branch
of readSymbol renders a packed penta as a string; its bit length is
recovered by the smallest-multiple-of-5 scan.  A failing rendering is
collapsed to the empty string, which no claim depends on. -/
def toStringPenta (penta : Nat) : List Nat :=
  (pentaToString penta (plenOf penta 0)).getD []

/-- Total bit length of the penta codes of a string: the value accumulated
in the plen variable of encode when every character is below 128. -/
def plenSum (s : List Nat) : Nat := (s.map plength).sum

/-- Packed penta run of a string: each code shifted above the bits of the
rest of the string.  This closed form is what the accumulator of encode
computes when no overflow occurs. -/
def mathPacked : List Nat → Nat
  | [] => 0
  | c :: r => pentas c * 2 ^ plenSum r + mathPacked r

/-- Eligibility of every character of a string: below 128 and with a real
table length (not the 64 sentinel). -/
def Eligible (s : List Nat) : Prop := ∀ c ∈ s, c < 128 ∧ plength c ≠ 64

/-- Modelled from the spec: the byte-source abstraction (BufferedInput) is
external to the sources.  A source is an abstract state with the six read
operations used by readSymbol, each returning a value and the next state. -/
structure BufferedInput (σ : Type) where
  readUnsignedByte : σ → Nat × σ
  readUnsignedShort : σ → Nat × σ
  readInt : σ → Int × σ
  readCompactLong : σ → Int × σ
  readUTFChar : σ → Nat × σ
  readUTFString : σ → List Nat × σ

/-- Range constraints of a well-behaved byte source: unsigned bytes are
below 256, unsigned shorts below 65536 and the signed 32-bit read stays in
the two-complement range. -/
def WellFormed {σ : Type} (src : BufferedInput σ) : Prop :=
  (∀ s, (src.readUnsignedByte s).1 < 256) ∧
  (∀ s, (src.readUnsignedShort s).1 < 65536) ∧
  (∀ s, -(2 ^ 31) ≤ (src.readInt s).1 ∧ (src.readInt s).1 < 2 ^ 31)

/-- Errors raised by readSymbol itself. -/
inductive SymErr where
  | reservedBitSequence
  | illegalLength
  | codePointBeyondBMP
  deriving DecidableEq

instance {ε α : Type} [DecidableEq ε] [DecidableEq α] : DecidableEq (Except ε α) :=
  fun x y =>
    match x, y with
    | Except.ok a, Except.ok b =>
      if h : a = b then isTrue (by rw [h]) else isFalse (by intro hh; injection hh; contradiction)
    | Except.error a, Except.error b =>
      if h : a = b then isTrue (by rw [h]) else isFalse (by intro hh; injection hh; contradiction)
    | Except.ok _, Except.error _ => isFalse (by intro hh; injection hh)
    | Except.error _, Except.ok _ => isFalse (by intro hh; injection hh)

/-- The out parameter result[0] of readSymbol: none when the slot was never
written, some none when null was stored, some (some s) when a string was
stored. -/
abbrev ResultSlot := Option (Option (List Nat))

/-- Character loop of the CESU-8 branch: read count UTF characters, failing
when a code point is beyond the basic multilingual plane.  Returns the
characters in order together with the state after the last read. -/
def readChars {σ : Type} (src : BufferedInput σ) : Nat → σ → Except SymErr (List Nat) × σ
  | 0, s => (Except.ok [], s)
  | k + 1, s =>
    let rc := src.readUTFChar s
    if 0xFFFF < rc.1 then (Except.error SymErr.codePointBeyondBMP, rc.2)
    else
      match readChars src k rc.2 with
      | (Except.ok cs, s2) => (Except.ok (rc.1 :: cs), s2)
      | (Except.error e, s2) => (Except.error e, s2)

/-- Modelled from the spec: the VALID_CIPHER mask is declared outside the
sources; a value with a bit of the mask set cannot be a valid cipher, and
every non-zero cipher has one of the two top bits set, so the mask is the
top two bits of a 32-bit word. -/
def VALID_CIPHER : Nat := 0xC0000000

/-- Tail of readSymbol shared by every penta tier: recover plen by the
smallest-multiple-of-5 scan, encode the penta into a cipher, and on a zero
cipher store the rendered string into the result slot. -/
def finishPenta {σ : Type} (penta : Nat) (s : σ) :
    Except SymErr (Nat × ResultSlot) × σ :=
  let cipher := encodePenta penta (plenOf penta 0)
  if cipher = 0 then (Except.ok (0, some (some (toStringPenta penta))), s)
  else (Except.ok (cipher, none), s)

/-- CESU-8 branch of readSymbol (first byte 0xFD), after the compact-long
length has been read: len is that length and s2 the state of the source at
that point.  An out-of-range length throws illegal-length, the sentinels -1
and 0 store null and the empty string, and otherwise len characters are
read; a short enough length that cannot collide with a cipher is returned
as the cipher with the slot untouched, every other path stores the string. -/
def readCesu {σ : Type} (src : BufferedInput σ) (bufLen : Nat) (len : Int) (s2 : σ) :
    Except SymErr (Nat × ResultSlot) × σ :=
  if len < -1 ∨ (2147483647 : Int) < len then (Except.error SymErr.illegalLength, s2)
  else if len = -1 then (Except.ok (0, some none), s2)
  else if len = 0 then (Except.ok (0, some (some [])), s2)
  else
    match (readChars src len.toNat s2).1 with
    | Except.error e => (Except.error e, (readChars src len.toNat s2).2)
    | Except.ok chars =>
      if len.toNat ≤ bufLen ∧ len.toNat &&& VALID_CIPHER = 0 then
        (Except.ok (len.toNat, none), (readChars src len.toNat s2).2)
      else (Except.ok (0, some (some chars)), (readChars src len.toNat s2).2)

/-- First-byte dispatch of readSymbol: i is the tag byte already read and s
the state of the source after it.  Each tier reads its payload and goes
through finishPenta; the reserved ranges throw, 0xFC and 0xFD read strings,
0xFE is the empty penta and 0xFF stores null. -/
def readDispatch {σ : Type} (src : BufferedInput σ) (bufLen : Nat) (i : Nat) (s : σ) :
    Except SymErr (Nat × ResultSlot) × σ :=
  if i < 0x80 then
    finishPenta ((i <<< 8) + (src.readUnsignedByte s).1) (src.readUnsignedByte s).2
  else if i < 0xC0 then
    finishPenta
      (((i &&& 0x3F) <<< 24) + ((src.readUnsignedByte s).1 <<< 16) +
        (src.readUnsignedShort (src.readUnsignedByte s).2).1)
      (src.readUnsignedShort (src.readUnsignedByte s).2).2
  else if i < 0xE0 then (Except.error SymErr.reservedBitSequence, s)
  else if i < 0xF0 then
    finishPenta (((i &&& 0x0F) <<< 16) + (src.readUnsignedShort s).1) (src.readUnsignedShort s).2
  else if i < 0xF8 then
    finishPenta (((i &&& 0x07) <<< 32) + ((src.readInt s).1 % (4294967296 : Int)).toNat)
      (src.readInt s).2
  else if i < 0xFC then (Except.error SymErr.reservedBitSequence, s)
  else if i = 0xFC then
    (Except.ok (0, some (some (src.readUTFString s).1)), (src.readUTFString s).2)
  else if i = 0xFD then readCesu src bufLen (src.readCompactLong s).1 (src.readCompactLong s).2
  else if i = 0xFE then finishPenta 0 s
  else (Except.ok (0, some none), s)

/-- The readSymbol entry point (readSymbol in the source).  The outcome
pairs the returned cipher with the result slot; the second component is the
state of the source when the call returns or throws.  bufLen is the length
of the caller-owned scratch buffer; its prior contents never reach the
result, so the buffer is modelled by its length alone. -/
def readSymbol {σ : Type} (src : BufferedInput σ) (bufLen : Nat) (s0 : σ) :
    Except SymErr (Nat × ResultSlot) × σ :=
  readDispatch src bufLen (src.readUnsignedByte s0).1 (src.readUnsignedByte s0).2

/-- Big-endian signed 32-bit value of four bytes. -/
def beInt (b0 b1 b2 b3 : Nat) : Int :=
  let u := (b0 % 256) <<< 24 + (b1 % 256) <<< 16 + (b2 % 256) <<< 8 + b3 % 256
  if u < 2 ^ 31 then (u : Int) else (u : Int) - 2 ^ 32

/-- Modelled from the spec: a concrete byte source backed by a list of
bytes.  Bytes are consumed from the front and reduced mod 256; the
compact-long and UTF formats are external to the repository, so those
reads return fixed values, enough for the inputs below that never decode
a non-trivial one. -/
def listSource : BufferedInput (List Nat) where
  readUnsignedByte s := (s.headD 0 % 256, s.tail)
  readUnsignedShort s := ((s.headD 0 % 256) <<< 8 + s.tail.headD 0 % 256, s.tail.tail)
  readInt s := (beInt (s.headD 0) (s.tail.headD 0) (s.tail.tail.headD 0) (s.tail.tail.tail.headD 0),
    s.tail.tail.tail.tail)
  readCompactLong s := (0, s)
  readUTFChar s := (s.headD 0 % 256, s.tail)
  readUTFString s := ([], s)

/-! ### Table facts -/

theorem tbl_plength_cases : ∀ c, c < 128 → (plength c = 5 ∨ plength c = 10 ∨ plength c = 64) := by
  decide

theorem tbl_eligible : ∀ c, c < 128 → plength c ≠ 64 →
    1 ≤ pentas c ∧ pentas c < 2 ^ plength c ∧ 2 ^ (plength c - 5) ≤ pentas c ∧
    characters (pentas c) = c ∧ (plength c = 5 → pentas c < 30) ∧
    (plength c = 10 → 960 ≤ pentas c ∧ pentas c < 1024) := by
  decide

theorem pentas_slash : pentas 47 = 28 := by decide

theorem pentas_dollar : pentas 36 = 29 := by decide

/-! ### plen recovery -/

theorem plenOf_stop (n acc : Nat) (h : n < 2 ^ acc) : plenOf n acc = acc := by
  unfold plenOf
  rw [dif_pos]
  rw [Nat.shiftRight_eq_div_pow]
  exact Nat.div_eq_of_lt h

theorem plenOf_step (n acc : Nat) (h : 2 ^ acc ≤ n) : plenOf n acc = plenOf n (acc + 5) := by
  have hne : ¬ (n >>> acc = 0) := by
    rw [Nat.shiftRight_eq_div_pow]
    have hpos : 0 < n / 2 ^ acc := Nat.div_pos h (Nat.pos_pow_of_pos acc (by norm_num))
    omega
  conv_lhs => unfold plenOf
  rw [dif_neg hne]

theorem plenOf_le (n k acc : Nat) (hacc : acc ≤ k) (hmod : (k - acc) % 5 = 0)
    (hlt : n < 2 ^ k) : plenOf n acc ≤ k := by
  by_cases h : n < 2 ^ acc
  · rw [plenOf_stop n acc h]; exact hacc
  · push_neg at h
    have hne : acc ≠ k := by rintro rfl; omega
    rw [plenOf_step n acc h]
    exact plenOf_le n k (acc + 5) (by omega) (by omega) hlt
termination_by k - acc

theorem plenOf_exact (n k acc : Nat) (hacc : acc ≤ k) (hmod : (k - acc) % 5 = 0)
    (hlt : n < 2 ^ k) (hge : 2 ^ (k - 5) ≤ n ∨ acc = k) : plenOf n acc = k := by
  rcases Nat.eq_or_lt_of_le hacc with heq | hltacc
  · subst heq; exact plenOf_stop n acc hlt
  · have hge' : 2 ^ (k - 5) ≤ n := by
      rcases hge with h | h
      · exact h
      · omega
    have hstep : 2 ^ acc ≤ n :=
      le_trans (Nat.pow_le_pow_right (by norm_num) (by omega)) hge'
    rw [plenOf_step n acc hstep]
    exact plenOf_exact n k (acc + 5) (by omega) (by omega) hlt (Or.inl hge')
termination_by k - acc

theorem plenOf_zero_acc (acc : Nat) : plenOf 0 acc = acc :=
  plenOf_stop 0 acc (Nat.pos_pow_of_pos acc (by norm_num))

/-! ### encodePenta arithmetic -/

theorem encodePenta_low (penta plen : Nat) (hplen : plen ≤ 30) (hp : penta < 2 ^ 30) :
    encodePenta penta plen = penta + 2 ^ 30 := by
  unfold encodePenta
  rw [if_pos hplen]
  have e30 : (2 : Nat) ^ 30 = 1073741824 := by norm_num
  have e32 : (2 : Nat) ^ 32 = 4294967296 := by norm_num
  rw [e30] at hp ⊢
  rw [e32]
  omega

theorem encodePenta_low_ne_zero (penta plen : Nat) (hplen : plen ≤ 30) (hp : penta < 2 ^ 30) :
    encodePenta penta plen ≠ 0 := by
  rw [encodePenta_low penta plen hplen hp]
  positivity

/-! ### encode loop characterization -/

theorem plenSum_nil : plenSum [] = 0 := rfl

theorem plenSum_cons (c : Nat) (r : List Nat) : plenSum (c :: r) = plength c + plenSum r := by
  simp [plenSum]

theorem eligible_cons {c : Nat} {r : List Nat} (h : Eligible (c :: r)) :
    (c < 128 ∧ plength c ≠ 64) ∧ Eligible r := by
  refine ⟨h c (List.mem_cons_self c r), fun x hx => h x (List.mem_cons_of_mem c hx)⟩

theorem plength_of_eligible {c : Nat} (h128 : c < 128) (hne : plength c ≠ 64) :
    plength c = 5 ∨ plength c = 10 := by
  rcases tbl_plength_cases c h128 with h | h | h
  · exact Or.inl h
  · exact Or.inr h
  · exact absurd h hne

theorem mathPacked_lt (s : List Nat) (helig : Eligible s) : mathPacked s < 2 ^ plenSum s := by
  induction s with
  | nil => simp [mathPacked, plenSum]
  | cons c r ih =>
    obtain ⟨⟨h128, hne⟩, helr⟩ := eligible_cons helig
    have hpc : pentas c < 2 ^ plength c := (tbl_eligible c h128 hne).2.1
    have hr := ih helr
    rw [plenSum_cons, pow_add]
    calc mathPacked (c :: r) = pentas c * 2 ^ plenSum r + mathPacked r := rfl
      _ < pentas c * 2 ^ plenSum r + 2 ^ plenSum r := by omega
      _ = (pentas c + 1) * 2 ^ plenSum r := by ring
      _ ≤ 2 ^ plength c * 2 ^ plenSum r := by
          exact Nat.mul_le_mul_right _ (by omega)

theorem mathPacked_ge (c : Nat) (r : List Nat) (helig : Eligible (c :: r)) :
    2 ^ (plenSum (c :: r) - 5) ≤ mathPacked (c :: r) := by
  obtain ⟨⟨h128, hne⟩, _⟩ := eligible_cons helig
  have hel := tbl_eligible c h128 hne
  have hpl : plength c = 5 ∨ plength c = 10 := plength_of_eligible h128 hne
  have h5 : 5 ≤ plength c := by omega
  have hge : 2 ^ (plength c - 5) ≤ pentas c := hel.2.2.1
  have : 2 ^ (plenSum (c :: r) - 5) = 2 ^ (plength c - 5) * 2 ^ plenSum r := by
    rw [← pow_add]
    congr 1
    rw [plenSum_cons]
    omega
  rw [this]
  calc 2 ^ (plength c - 5) * 2 ^ plenSum r ≤ pentas c * 2 ^ plenSum r :=
        Nat.mul_le_mul_right _ hge
    _ ≤ mathPacked (c :: r) := Nat.le_add_right _ _

theorem plenSum_mod5 (s : List Nat) (helig : Eligible s) : plenSum s % 5 = 0 := by
  induction s with
  | nil => simp [plenSum]
  | cons c r ih =>
    obtain ⟨⟨h128, hne⟩, helr⟩ := eligible_cons helig
    have hpl : plength c = 5 ∨ plength c = 10 := plength_of_eligible h128 hne
    have hr := ih helr
    rw [plenSum_cons]
    omega

theorem plenSum_length (s : List Nat) (helig : Eligible s) : 5 * s.length ≤ plenSum s := by
  induction s with
  | nil => simp [plenSum]
  | cons c r ih =>
    obtain ⟨⟨h128, hne⟩, helr⟩ := eligible_cons helig
    have hpl : plength c = 5 ∨ plength c = 10 := plength_of_eligible h128 hne
    have hr := ih helr
    rw [plenSum_cons]
    simp only [List.length_cons]
    omega

theorem encodeLoop_eq (s : List Nat) (helig : Eligible s) :
    ∀ p l, p < 2 ^ l → l + plenSum s ≤ 35 →
      encodeLoop s p l = some (p * 2 ^ plenSum s + mathPacked s, l + plenSum s) := by
  induction s with
  | nil =>
    intro p l hp h35
    simp [encodeLoop, plenSum, mathPacked]
  | cons c r ih =>
    intro p l hp h35
    obtain ⟨⟨h128, hne⟩, helr⟩ := eligible_cons helig
    have hpc : pentas c < 2 ^ plength c := (tbl_eligible c h128 hne).2.1
    have hpl : plength c = 5 ∨ plength c = 10 := plength_of_eligible h128 hne
    have hmod64 : plength c % 64 = plength c := Nat.mod_eq_of_lt (by omega)
    have hsum : plenSum (c :: r) = plength c + plenSum r := plenSum_cons c r
    have hacc : p <<< plength c + pentas c < 2 ^ (l + plength c) := by
      rw [Nat.shiftLeft_eq, pow_add]
      calc p * 2 ^ plength c + pentas c < p * 2 ^ plength c + 2 ^ plength c := by omega
        _ = (p + 1) * 2 ^ plength c := by ring
        _ ≤ 2 ^ l * 2 ^ plength c := Nat.mul_le_mul_right _ (by omega)
    have hmod : (p <<< plength c + pentas c) % 2 ^ 64 = p <<< plength c + pentas c := by
      apply Nat.mod_eq_of_lt
      apply lt_of_lt_of_le hacc
      apply Nat.pow_le_pow_right (by norm_num)
      omega
    unfold encodeLoop
    rw [if_neg (by omega), hmod64, hmod]
    rw [ih helr _ (l + plength c) hacc (by omega)]
    congr 2
    · rw [Nat.shiftLeft_eq, hsum]
      show (p * 2 ^ plength c + pentas c) * 2 ^ plenSum r + mathPacked r =
        p * 2 ^ (plength c + plenSum r) + (pentas c * 2 ^ plenSum r + mathPacked r)
      rw [pow_add]
      ring
    · rw [hsum]
      ring

theorem encode_eq (s : List Nat) (helig : Eligible s) (h35 : plenSum s ≤ 35) :
    encode (some s) = encodePenta (mathPacked s) (plenSum s) := by
  have hlen : ¬ 7 < s.length := by
    have := plenSum_length s helig
    omega
  have hloop := encodeLoop_eq s helig 0 0 (by norm_num) (by omega)
  simp only [encode]
  rw [if_neg hlen, hloop]
  simp only [Nat.zero_mul, Nat.zero_add]
  rw [if_neg (by omega)]

/-! ### High tier of encodePenta -/

theorem shift30_lt (M : Nat) (hM : M < 2 ^ 35) : M >>> 30 < 32 := by
  rw [Nat.shiftRight_eq_div_pow]
  rw [Nat.div_lt_iff_lt_mul (by positivity)]
  calc M < 2 ^ 35 := hM
    _ = 32 * 2 ^ 30 := by norm_num

theorem encodePenta_high28 (M plen : Nat) (hM : M < 2 ^ 35) (hplen : ¬ plen ≤ 30)
    (h28 : M >>> 30 = 28) : encodePenta M plen = M % 2 ^ 30 + 0x80000000 := by
  have h32 : (M >>> 30) % 2 ^ 32 = M >>> 30 :=
    Nat.mod_eq_of_lt (lt_trans (shift30_lt M hM) (by norm_num))
  have hmlt : M % 2 ^ 30 < 2 ^ 30 := Nat.mod_lt _ (by positivity)
  unfold encodePenta
  rw [if_neg hplen, h32, h28, pentas_slash, if_pos rfl]
  apply Nat.mod_eq_of_lt
  have : (0x80000000 : Nat) = 2 ^ 31 := by norm_num
  rw [this]
  calc M % 2 ^ 30 + 2 ^ 31 < 2 ^ 30 + 2 ^ 31 := by omega
    _ < 2 ^ 32 := by norm_num

theorem encodePenta_high29 (M plen : Nat) (hM : M < 2 ^ 35) (hplen : ¬ plen ≤ 30)
    (h29 : M >>> 30 = 29) : encodePenta M plen = M % 2 ^ 30 + 0xC0000000 := by
  have h32 : (M >>> 30) % 2 ^ 32 = M >>> 30 :=
    Nat.mod_eq_of_lt (lt_trans (shift30_lt M hM) (by norm_num))
  have hmlt : M % 2 ^ 30 < 2 ^ 30 := Nat.mod_lt _ (by positivity)
  unfold encodePenta
  rw [if_neg hplen, h32, h29, pentas_slash, pentas_dollar]
  rw [if_neg (by norm_num), if_pos rfl]
  apply Nat.mod_eq_of_lt
  have : (0xC0000000 : Nat) = 3 * 2 ^ 30 := by norm_num
  rw [this]
  calc M % 2 ^ 30 + 3 * 2 ^ 30 < 2 ^ 30 + 3 * 2 ^ 30 := by omega
    _ = 2 ^ 32 := by norm_num

theorem encodePenta_high0 (M plen : Nat) (hM : M < 2 ^ 35) (hplen : ¬ plen ≤ 30)
    (hne28 : M >>> 30 ≠ 28) (hne29 : M >>> 30 ≠ 29) : encodePenta M plen = 0 := by
  have h32 : (M >>> 30) % 2 ^ 32 = M >>> 30 :=
    Nat.mod_eq_of_lt (lt_trans (shift30_lt M hM) (by norm_num))
  unfold encodePenta
  rw [if_neg hplen, h32, pentas_slash, pentas_dollar, if_neg hne28, if_neg hne29]

/-! ### decodeCipher by tag -/

theorem decodeCipher_tag1 (x : Nat) (hx : x < 2 ^ 30) : decodeCipher (x + 2 ^ 30) = Except.ok x := by
  have htag : (x + 2 ^ 30) >>> 30 = 1 := by
    rw [Nat.shiftRight_eq_div_pow, Nat.add_div_right _ (by positivity), Nat.div_eq_of_lt hx]
  have hmod : (x + 2 ^ 30) % 2 ^ 30 = x := by
    rw [Nat.add_mod_right]
    exact Nat.mod_eq_of_lt hx
  unfold decodeCipher
  rw [htag, hmod]
  norm_num

theorem decodeCipher_tag2 (x : Nat) (hx : x < 2 ^ 30) :
    decodeCipher (x + 0x80000000) = Except.ok (pentas 47 <<< 30 + x) := by
  have he : (0x80000000 : Nat) = 2 * 2 ^ 30 := by norm_num
  have htag : (x + 0x80000000) >>> 30 = 2 := by
    rw [he, Nat.shiftRight_eq_div_pow, Nat.add_mul_div_right _ _ (by positivity),
      Nat.div_eq_of_lt hx]
  have hmod : (x + 0x80000000) % 2 ^ 30 = x := by
    rw [he, Nat.add_mul_mod_self_right]
    exact Nat.mod_eq_of_lt hx
  unfold decodeCipher
  rw [htag, hmod]
  norm_num

theorem decodeCipher_tag3 (x : Nat) (hx : x < 2 ^ 30) :
    decodeCipher (x + 0xC0000000) = Except.ok (pentas 36 <<< 30 + x) := by
  have he : (0xC0000000 : Nat) = 3 * 2 ^ 30 := by norm_num
  have htag : (x + 0xC0000000) >>> 30 = 3 := by
    rw [he, Nat.shiftRight_eq_div_pow, Nat.add_mul_div_right _ _ (by positivity),
      Nat.div_eq_of_lt hx]
  have hmod : (x + 0xC0000000) % 2 ^ 30 = x := by
    rw [he, Nat.add_mul_mod_self_right]
    exact Nat.mod_eq_of_lt hx
  unfold decodeCipher
  rw [htag, hmod]
  norm_num

/-! ### Rendering a packed run -/

theorem plength_zero_sentinel : plength 0 = 64 := by decide

theorem plenOf_packed (s : List Nat) (helig : Eligible s) :
    plenOf (mathPacked s) 0 = plenSum s := by
  cases s with
  | nil => exact plenOf_zero_acc 0
  | cons c r =>
    apply plenOf_exact _ _ 0 (Nat.zero_le _) (by simpa using plenSum_mod5 _ helig)
      (mathPacked_lt _ helig)
    exact Or.inl (mathPacked_ge c r helig)

theorem pentaToString_cons5 (P L n : Nat) (hP30 : P < 30) (hn : n < 2 ^ L)
    (hchar : ¬ characters P = 0) :
    pentaToString (P * 2 ^ L + n) (5 + L) =
      (pentaToString n L).map (fun r => characters P :: r) := by
  have h0 : ¬ (5 + L = 0) := by omega
  have h5 : ¬ (5 + L < 5) := by omega
  have hsub : 5 + L - 5 = L := by omega
  have hdiv : (P * 2 ^ L + n) >>> L = P := by
    rw [Nat.shiftRight_eq_div_pow, mul_comm,
      Nat.mul_add_div (Nat.pos_pow_of_pos _ (by norm_num)), Nat.div_eq_of_lt hn]
    omega
  have hmod32 : P % 32 = P := Nat.mod_eq_of_lt (by omega)
  have hmodL : (P * 2 ^ L + n) % 2 ^ L = n := by
    rw [mul_comm, Nat.mul_add_mod]
    exact Nat.mod_eq_of_lt hn
  conv_lhs => rw [pentaToString]
  rw [if_neg h0, if_neg h5, hsub, hdiv, hmod32, if_pos hP30, if_neg hchar, hmodL]

theorem pentaToString_cons10 (P L n : Nat) (hPge : 960 ≤ P) (hPlt : P < 1024) (hn : n < 2 ^ L)
    (hchar : ¬ characters P = 0) :
    pentaToString (P * 2 ^ L + n) (10 + L) =
      (pentaToString n L).map (fun r => characters P :: r) := by
  have h0 : ¬ (10 + L = 0) := by omega
  have h5 : ¬ (10 + L < 5) := by omega
  have h10 : ¬ (10 + L < 10) := by omega
  have hsub5 : 10 + L - 5 = L + 5 := by omega
  have hsub10 : 10 + L - 10 = L := by omega
  have hdivL : (P * 2 ^ L + n) >>> L = P := by
    rw [Nat.shiftRight_eq_div_pow, mul_comm,
      Nat.mul_add_div (Nat.pos_pow_of_pos _ (by norm_num)), Nat.div_eq_of_lt hn]
    omega
  have hdivL' : (P * 2 ^ L + n) / 2 ^ L = P := by
    rw [← Nat.shiftRight_eq_div_pow]
    exact hdivL
  have hdiv5 : (P * 2 ^ L + n) >>> (L + 5) = P / 32 := by
    rw [Nat.shiftRight_eq_div_pow, pow_add, ← Nat.div_div_eq_div_mul, hdivL']
    norm_num
  have hP32 : P / 32 < 32 := by omega
  have hP30' : 30 ≤ P / 32 := by omega
  have hg5 : (P / 32) % 32 = P / 32 := Nat.mod_eq_of_lt hP32
  have hge30 : ¬ ((P / 32) % 32 < 30) := by omega
  have hmod1024 : P % 1024 = P := Nat.mod_eq_of_lt (by omega)
  have hmodL : (P * 2 ^ L + n) % 2 ^ L = n := by
    rw [mul_comm, Nat.mul_add_mod]
    exact Nat.mod_eq_of_lt hn
  conv_lhs => rw [pentaToString]
  rw [if_neg h0, if_neg h5, hsub5, hdiv5, if_neg hge30, hsub10, if_neg h10, hdivL, hmod1024,
    if_neg hchar, hmodL]

theorem pentaToString_packed (s : List Nat) (helig : Eligible s) :
    pentaToString (mathPacked s) (plenSum s) = some s := by
  induction s with
  | nil =>
    have h : plenSum [] = 0 := rfl
    unfold pentaToString
    rw [if_pos h]
  | cons c r ih =>
    obtain ⟨⟨h128, hne⟩, helr⟩ := eligible_cons helig
    have hel := tbl_eligible c h128 hne
    obtain ⟨hP1, hPlt, hPge, hchar, h5lt, h10rng⟩ := hel
    have hpl := plength_of_eligible h128 hne
    have hM : mathPacked r < 2 ^ plenSum r := mathPacked_lt r helr
    have hcne : ¬ characters (pentas c) = 0 := by
      rw [hchar]
      intro hc
      rw [hc] at hne
      exact hne plength_zero_sentinel
    have hpackcons : mathPacked (c :: r) = pentas c * 2 ^ plenSum r + mathPacked r := rfl
    rcases hpl with hlc | hlc
    · have hsum : plenSum (c :: r) = 5 + plenSum r := by rw [plenSum_cons, hlc]
      rw [hpackcons, hsum, pentaToString_cons5 _ _ _ (h5lt hlc) hM hcne, ih helr, hchar]
      rfl
    · have hsum : plenSum (c :: r) = 10 + plenSum r := by rw [plenSum_cons, hlc]
      obtain ⟨h960, h1024⟩ := h10rng hlc
      rw [hpackcons, hsum, pentaToString_cons10 _ _ _ h960 h1024 hM hcne, ih helr, hchar]
      rfl

/-! ### readSymbol path analysis -/

theorem finishPenta_cases {σ : Type} (penta : Nat) (s : σ) :
    (encodePenta penta (plenOf penta 0) = 0 ∧
      finishPenta penta s = (Except.ok (0, some (some (toStringPenta penta))), s)) ∨
    (encodePenta penta (plenOf penta 0) ≠ 0 ∧
      finishPenta penta s = (Except.ok (encodePenta penta (plenOf penta 0), none), s)) := by
  unfold finishPenta
  by_cases hc : encodePenta penta (plenOf penta 0) = 0
  · left
    exact ⟨hc, by rw [if_pos hc]⟩
  · right
    exact ⟨hc, by rw [if_neg hc]⟩

theorem finishPenta_frame {σ : Type} (penta : Nat) (s : σ) (r : Nat × ResultSlot)
    (hr : (finishPenta penta s).1 = Except.ok r) (hnz : r.1 ≠ 0) : r.2 = none := by
  rcases finishPenta_cases penta s with ⟨h0, heq⟩ | ⟨h0, heq⟩
  · rw [heq] at hr
    have hinj := Except.ok.inj hr
    rw [← hinj] at hnz
    exact absurd rfl hnz
  · rw [heq] at hr
    have hinj := Except.ok.inj hr
    rw [← hinj]

theorem readCesu_frame {σ : Type} (src : BufferedInput σ) (bufLen : Nat) (len : Int) (s2 : σ)
    (r : Nat × ResultSlot) (hr : (readCesu src bufLen len s2).1 = Except.ok r) (hnz : r.1 ≠ 0) :
    r.2 = none := by
  unfold readCesu at hr
  repeat' split at hr
  all_goals
    first
    | exact Except.noConfusion hr
    | (have hinj := Except.ok.inj hr
       rw [← hinj] at hnz
       first
       | (exfalso; exact hnz rfl)
       | (rw [← hinj]))

theorem readDispatch_frame {σ : Type} (src : BufferedInput σ) (bufLen : Nat) (i : Nat) (s : σ)
    (r : Nat × ResultSlot) (hr : (readDispatch src bufLen i s).1 = Except.ok r) (hnz : r.1 ≠ 0) :
    r.2 = none := by
  unfold readDispatch at hr
  repeat' split at hr
  all_goals
    first
    | exact finishPenta_frame _ _ r hr hnz
    | exact readCesu_frame _ _ _ _ r hr hnz
    | exact Except.noConfusion hr
    | (have hinj := Except.ok.inj hr
       rw [← hinj] at hnz
       first
       | (exfalso; exact hnz rfl)
       | (rw [← hinj]))

/-! ### encode on bad inputs -/

theorem encodeLoop_mono (s : List Nat) :
    ∀ p l q m, encodeLoop s p l = some (q, m) → l ≤ m := by
  induction s with
  | nil =>
    intro p l q m h
    simp only [encodeLoop, Option.some.injEq, Prod.mk.injEq] at h
    omega
  | cons c r ih =>
    intro p l q m h
    unfold encodeLoop at h
    by_cases hc : 128 ≤ c
    · rw [if_pos hc] at h
      exact absurd h (by simp)
    · rw [if_neg hc] at h
      have := ih _ _ _ _ h
      omega

theorem encodeLoop_bad (c : Nat) (hbad : 128 ≤ c ∨ plength c = 64) :
    ∀ s, c ∈ s → ∀ p l,
      encodeLoop s p l = none ∨ ∃ q m, encodeLoop s p l = some (q, m) ∧ l + 64 ≤ m := by
  intro s
  induction s with
  | nil =>
    intro hc
    cases hc
  | cons d r ih =>
    intro hc p l
    unfold encodeLoop
    by_cases hd : 128 ≤ d
    · left
      rw [if_pos hd]
    · rw [if_neg hd]
      rcases List.mem_cons.mp hc with heq | hmem
      · subst heq
        have h64 : plength c = 64 := by
          rcases hbad with h | h
          · omega
          · exact h
        cases hres : encodeLoop r ((p <<< (plength c % 64) + pentas c) % 2 ^ 64) (l + plength c) with
        | none => exact Or.inl rfl
        | some qm =>
          obtain ⟨q, m⟩ := qm
          right
          refine ⟨q, m, rfl, ?_⟩
          have := encodeLoop_mono r _ _ q m hres
          omega
      · rcases ih hmem ((p <<< (plength d % 64) + pentas d) % 2 ^ 64) (l + plength d) with
          hnone | ⟨q, m, hsome, hm⟩
        · exact Or.inl hnone
        · exact Or.inr ⟨q, m, hsome, by omega⟩

/-! ### Penta tiers always produce a cipher -/

theorem finishPenta_ok {σ : Type} (penta : Nat) (s : σ) (hp : penta < 2 ^ 30) :
    finishPenta penta s = (Except.ok (penta + 2 ^ 30, none), s) ∧ penta + 2 ^ 30 ≠ 0 := by
  have hplen : plenOf penta 0 ≤ 30 := plenOf_le penta 30 0 (by omega) (by omega) hp
  have henc : encodePenta penta (plenOf penta 0) = penta + 2 ^ 30 :=
    encodePenta_low _ _ hplen hp
  refine ⟨?_, by positivity⟩
  unfold finishPenta
  rw [henc, if_neg (by positivity)]

theorem readDispatch_tier_ok {σ : Type} (src : BufferedInput σ) (hwf : WellFormed src)
    (bufLen : Nat) (i : Nat) (s : σ)
    (htier : i < 0xC0 ∨ (0xE0 ≤ i ∧ i < 0xF0) ∨ i = 0xFE) :
    ∃ cipher, (readDispatch src bufLen i s).1 = Except.ok (cipher, none) ∧ cipher ≠ 0 := by
  obtain ⟨hwb, hws, hwi⟩ := hwf
  have e8 : (2 : Nat) ^ 8 = 256 := by norm_num
  have e16 : (2 : Nat) ^ 16 = 65536 := by norm_num
  have e24 : (2 : Nat) ^ 24 = 16777216 := by norm_num
  have e30 : (2 : Nat) ^ 30 = 1073741824 := by norm_num
  unfold readDispatch
  by_cases h80 : i < 0x80
  · rw [if_pos h80]
    have hb := hwb s
    have hp : (i <<< 8) + (src.readUnsignedByte s).1 < 2 ^ 30 := by
      rw [Nat.shiftLeft_eq, e8, e30]
      omega
    obtain ⟨heq, hne⟩ := finishPenta_ok _ (src.readUnsignedByte s).2 hp
    exact ⟨_, by rw [heq], hne⟩
  · rw [if_neg h80]
    by_cases hC0 : i < 0xC0
    · rw [if_pos hC0]
      have hb := hwb s
      have hw := hws (src.readUnsignedByte s).2
      have hand : i &&& 0x3F ≤ 0x3F := Nat.and_le_right
      have hp : ((i &&& 0x3F) <<< 24) + ((src.readUnsignedByte s).1 <<< 16) +
          (src.readUnsignedShort (src.readUnsignedByte s).2).1 < 2 ^ 30 := by
        rw [Nat.shiftLeft_eq, Nat.shiftLeft_eq, e16, e24, e30]
        omega
      obtain ⟨heq, hne⟩ := finishPenta_ok _ (src.readUnsignedShort (src.readUnsignedByte s).2).2 hp
      exact ⟨_, by rw [heq], hne⟩
    · rcases htier with h | ⟨hE0, hF0⟩ | hFE
      · omega
      · rw [if_neg hC0, if_neg (by omega), if_pos hF0]
        have hw := hws s
        have hand : i &&& 0x0F ≤ 0x0F := Nat.and_le_right
        have hp : ((i &&& 0x0F) <<< 16) + (src.readUnsignedShort s).1 < 2 ^ 30 := by
          rw [Nat.shiftLeft_eq, e16, e30]
          omega
        obtain ⟨heq, hne⟩ := finishPenta_ok _ (src.readUnsignedShort s).2 hp
        exact ⟨_, by rw [heq], hne⟩
      · subst hFE
        norm_num
        obtain ⟨heq, hne⟩ := finishPenta_ok 0 s (by positivity)
        exact ⟨_, by rw [heq], hne⟩

/-! ### CESU-8 branch sentinels -/

theorem readCesu_sentinels {σ : Type} (src : BufferedInput σ) (bufLen : Nat) (len : Int)
    (s2 : σ) :
    ((len < -1 ∨ (2147483647 : Int) < len) →
      readCesu src bufLen len s2 = (Except.error SymErr.illegalLength, s2)) ∧
    (len = -1 → readCesu src bufLen len s2 = (Except.ok (0, some none), s2)) ∧
    (len = 0 → readCesu src bufLen len s2 = (Except.ok (0, some (some [])), s2)) := by
  unfold readCesu
  refine ⟨fun h => by rw [if_pos h], fun h => ?_, fun h => ?_⟩
  · rw [if_neg (by omega), if_pos h]
  · rw [if_neg (by omega), if_neg (by omega), if_pos h]

theorem readDispatch_cesu {σ : Type} (src : BufferedInput σ) (bufLen : Nat) (s : σ) :
    readDispatch src bufLen 0xFD s =
      readCesu src bufLen (src.readCompactLong s).1 (src.readCompactLong s).2 := by
  unfold readDispatch
  norm_num

theorem readSymbol_as_dispatch {σ : Type} (src : BufferedInput σ) (bufLen : Nat) (s0 : σ) :
    readSymbol src bufLen s0 =
      readDispatch src bufLen (src.readUnsignedByte s0).1 (src.readUnsignedByte s0).2 := rfl

theorem readDispatch_tier15 {σ : Type} (src : BufferedInput σ) (bufLen i : Nat) (s : σ)
    (h : i < 0x80) :
    readDispatch src bufLen i s =
      finishPenta ((i <<< 8) + (src.readUnsignedByte s).1) (src.readUnsignedByte s).2 := by
  unfold readDispatch
  rw [if_pos h]

theorem readDispatch_tier35 {σ : Type} (src : BufferedInput σ) (bufLen i : Nat) (s : σ)
    (h1 : 0xF0 ≤ i) (h2 : i < 0xF8) :
    readDispatch src bufLen i s =
      finishPenta (((i &&& 0x07) <<< 32) + ((src.readInt s).1 % (4294967296 : Int)).toNat)
        (src.readInt s).2 := by
  unfold readDispatch
  rw [if_neg (by omega), if_neg (by omega), if_neg (by omega), if_neg (by omega),
    if_pos (by omega)]

theorem readDispatch_tierFE {σ : Type} (src : BufferedInput σ) (bufLen : Nat) (s : σ) :
    readDispatch src bufLen 0xFE s = finishPenta 0 s := by
  unfold readDispatch
  norm_num

/-! ### The list-backed source is well formed -/

theorem listSource_wf : WellFormed listSource := by
  refine ⟨fun s => ?_, fun s => ?_, fun s => ?_⟩
  · exact Nat.mod_lt _ (by norm_num)
  · show (s.headD 0 % 256) <<< 8 + s.tail.headD 0 % 256 < 65536
    have h1 : s.headD 0 % 256 < 256 := Nat.mod_lt _ (by norm_num)
    have h2 : s.tail.headD 0 % 256 < 256 := Nat.mod_lt _ (by norm_num)
    rw [Nat.shiftLeft_eq]
    norm_num
    omega
  · show -(2 ^ 31) ≤ beInt (s.headD 0) (s.tail.headD 0) (s.tail.tail.headD 0)
        (s.tail.tail.tail.headD 0) ∧ beInt (s.headD 0) (s.tail.headD 0) (s.tail.tail.headD 0)
        (s.tail.tail.tail.headD 0) < 2 ^ 31
    unfold beInt
    set b0 := s.headD 0 % 256 with hb0
    set b1 := s.tail.headD 0 % 256 with hb1
    set b2 := s.tail.tail.headD 0 % 256 with hb2
    set b3 := s.tail.tail.tail.headD 0 % 256 with hb3
    have h0 : b0 < 256 := Nat.mod_lt _ (by norm_num)
    have h1 : b1 < 256 := Nat.mod_lt _ (by norm_num)
    have h2 : b2 < 256 := Nat.mod_lt _ (by norm_num)
    have h3 : b3 < 256 := Nat.mod_lt _ (by norm_num)
    have hu : b0 <<< 24 + b1 <<< 16 + b2 <<< 8 + b3 < 4294967296 := by
      simp only [Nat.shiftLeft_eq]
      norm_num
      omega
    by_cases hc : b0 <<< 24 + b1 <<< 16 + b2 <<< 8 + b3 < 2 ^ 31
    · rw [if_pos hc]
      norm_num at hc ⊢
      omega
    · rw [if_neg hc]
      push_neg at hc
      norm_num at hc hu ⊢
      omega

/-! ### Concrete evaluations around the well-founded loops -/

theorem plenOf_one : plenOf 1 0 = 5 :=
  plenOf_exact 1 5 0 (by norm_num) (by norm_num) (by norm_num) (Or.inl (by norm_num))

theorem plenOf_pow30 : plenOf (2 ^ 30) 0 = 35 :=
  plenOf_exact _ 35 0 (by norm_num) (by norm_num) (by norm_num) (Or.inl (by norm_num))

theorem finishPenta_zero {σ : Type} (s : σ) :
    finishPenta 0 s = (Except.ok (0x40000000, none), s) := by
  obtain ⟨heq, _⟩ := finishPenta_ok 0 s (by positivity)
  rw [heq]
  norm_num

theorem finishPenta_one {σ : Type} (s : σ) :
    finishPenta 1 s = (Except.ok (0x40000001, none), s) := by
  obtain ⟨heq, _⟩ := finishPenta_ok 1 s (by norm_num)
  rw [heq]
  norm_num

theorem pentaToString_zero30 : pentaToString 0 30 = none := by
  rw [pentaToString]
  rw [if_neg (by norm_num : ¬ (30 : Nat) = 0), if_neg (by norm_num : ¬ (30 : Nat) < 5)]
  rw [show ((0 : Nat) >>> (30 - 5)) % 32 = 0 from by decide]
  rw [if_pos (by norm_num : (0 : Nat) < 30)]
  rw [if_pos (by decide : characters 0 = 0)]

theorem pentaToString_pow30 : pentaToString (2 ^ 30) 35 = none := by
  rw [pentaToString]
  rw [if_neg (by norm_num), if_neg (by norm_num)]
  have hg : (2 ^ 30 >>> (35 - 5)) % 32 = 1 := by decide
  rw [hg, if_pos (by norm_num), if_neg (by decide : ¬ characters 1 = 0)]
  have hm : 2 ^ 30 % 2 ^ (35 - 5) = 0 := by decide
  rw [hm, pentaToString_zero30]
  rfl

theorem toStringPenta_pow30 : toStringPenta (2 ^ 30) = [] := by
  unfold toStringPenta
  rw [plenOf_pow30, pentaToString_pow30]
  rfl

theorem encodePenta_pow30 : encodePenta (2 ^ 30) 35 = 0 := by decide

theorem finishPenta_pow30 {σ : Type} (s : σ) :
    finishPenta (2 ^ 30) s = (Except.ok (0, some (some [])), s) := by
  unfold finishPenta
  rw [plenOf_pow30, encodePenta_pow30, if_pos rfl, toStringPenta_pow30]

/-! ### Bitwise forms of the cipher tags -/

theorem lor_tag (x k : Nat) (hx : x < 2 ^ 30) : x ||| (2 ^ 30 * k) = x + 2 ^ 30 * k :=
  calc x ||| 2 ^ 30 * k = 2 ^ 30 * k ||| x := Nat.lor_comm _ _
    _ = 2 ^ 30 * k + x := (Nat.mul_add_lt_is_or hx k).symm
    _ = x + 2 ^ 30 * k := by ring

theorem and_low30 (x : Nat) : x &&& 0x3FFFFFFF = x % 2 ^ 30 := by
  have h := Nat.and_pow_two_sub_one_eq_mod x 30
  norm_num at h ⊢
  exact h

/-! ## Claims -/

/-- C3: encodePenta returns penta ||| 0x40000000 when plen is at most 30;
for larger plen it returns the low 30 bits with tag 10 when the top five
bits are 28 (the penta of the slash), with tag 11 when they are 29 (the
penta of the dollar), and 0 otherwise; and under the precondition a match
of the top five bits against 28 or 29 forces plen = 35 exactly, so the
comparison doubles as a plen-width guard. -/
theorem c3_encodePenta_spec (penta plen : Nat) (hplen : plen ≤ 35) (hpenta : penta < 2 ^ plen) :
    (plen ≤ 30 → encodePenta penta plen = penta ||| 0x40000000) ∧
    (30 < plen → penta >>> 30 = 28 →
      encodePenta penta plen = (penta &&& 0x3FFFFFFF) ||| 0x80000000) ∧
    (30 < plen → penta >>> 30 = 29 →
      encodePenta penta plen = (penta &&& 0x3FFFFFFF) ||| 0xC0000000) ∧
    (30 < plen → penta >>> 30 ≠ 28 → penta >>> 30 ≠ 29 → encodePenta penta plen = 0) ∧
    (30 < plen → (penta >>> 30 = 28 ∨ penta >>> 30 = 29) → plen = 35) := by
  have hlt35 : penta < 2 ^ 35 :=
    lt_of_lt_of_le hpenta (Nat.pow_le_pow_right (by norm_num) hplen)
  have hmod : penta % 2 ^ 30 < 2 ^ 30 := Nat.mod_lt _ (by positivity)
  refine ⟨fun h30 => ?_, fun h30 h28 => ?_, fun h30 h29 => ?_, fun h30 h1 h2 => ?_,
    fun h30 hor => ?_⟩
  · have hp30 : penta < 2 ^ 30 :=
      lt_of_lt_of_le hpenta (Nat.pow_le_pow_right (by norm_num) h30)
    rw [encodePenta_low _ _ h30 hp30,
      show (0x40000000 : Nat) = 2 ^ 30 * 1 from by norm_num, lor_tag penta 1 hp30, mul_one]
  · rw [encodePenta_high28 _ _ hlt35 (by omega) h28, and_low30,
      show (0x80000000 : Nat) = 2 ^ 30 * 2 from by norm_num,
      lor_tag (penta % 2 ^ 30) 2 hmod]
  · rw [encodePenta_high29 _ _ hlt35 (by omega) h29, and_low30,
      show (0xC0000000 : Nat) = 2 ^ 30 * 3 from by norm_num,
      lor_tag (penta % 2 ^ 30) 3 hmod]
  · exact encodePenta_high0 _ _ hlt35 (by omega) h1 h2
  · have hge : 28 * 2 ^ 30 ≤ penta := by
      have hdv : 28 ≤ penta / 2 ^ 30 := by
        rw [← Nat.shiftRight_eq_div_pow]
        rcases hor with h | h <;> omega
      calc 28 * 2 ^ 30 ≤ penta / 2 ^ 30 * 2 ^ 30 := Nat.mul_le_mul_right _ hdv
        _ ≤ penta := Nat.div_mul_le_self _ _
    by_contra hne
    have h34 : plen ≤ 34 := by omega
    have : penta < 2 ^ 34 :=
      lt_of_lt_of_le hpenta (Nat.pow_le_pow_right (by norm_num) h34)
    norm_num at this hge
    omega

/-- Witness for C3 at the concrete input penta 1, plen 5. -/
theorem c3_encodePenta_spec_witness : encodePenta 1 5 = 1 ||| 0x40000000 :=
  (c3_encodePenta_spec 1 5 (by norm_num) (by norm_num)).1 (by norm_num)

/-- C1: for every string of eligible characters whose packed penta length
is at most 35, when encode returns a non-zero cipher, decoding that cipher
with decodeCipher and rendering the decoded penta through penta_to_string
(with the bit length recovered as the smallest multiple of 5) yields the
original string. -/
theorem c1_roundtrip (s : List Nat) (helig : ∀ c ∈ s, c < 128 ∧ plength c ≠ 64)
    (h35 : plenSum s ≤ 35) (hnz : encode (some s) ≠ 0) :
    ∃ penta, decodeCipher (encode (some s)) = Except.ok penta ∧
      pentaToString penta (plenOf penta 0) = some s := by
  have henc := encode_eq s helig h35
  have hMlt := mathPacked_lt s helig
  have hK5 := plenSum_mod5 s helig
  have hplen := plenOf_packed s helig
  have hpts := pentaToString_packed s helig
  have e30 : (2 : Nat) ^ 30 = 1073741824 := by norm_num
  by_cases h30 : plenSum s ≤ 30
  · have hM30 : mathPacked s < 2 ^ 30 :=
      lt_of_lt_of_le hMlt (Nat.pow_le_pow_right (by norm_num) h30)
    refine ⟨mathPacked s, ?_, by rw [hplen]; exact hpts⟩
    rw [henc, encodePenta_low _ _ h30 hM30, decodeCipher_tag1 _ hM30]
  · have hK35 : plenSum s = 35 := by omega
    have hM35 : mathPacked s < 2 ^ 35 := by
      rw [hK35] at hMlt
      exact hMlt
    have hdm := Nat.div_add_mod (mathPacked s) (2 ^ 30)
    by_cases h28 : mathPacked s >>> 30 = 28
    · refine ⟨mathPacked s, ?_, by rw [hplen]; exact hpts⟩
      rw [henc, encodePenta_high28 _ _ hM35 (by omega) h28,
        show (0x80000000 : Nat) = 2147483648 from rfl]
      rw [show (2147483648 : Nat) = 0x80000000 from rfl,
        decodeCipher_tag2 _ (Nat.mod_lt _ (by positivity))]
      congr 1
      rw [pentas_slash, Nat.shiftLeft_eq]
      have hdv : mathPacked s / 2 ^ 30 = 28 := by
        rw [← Nat.shiftRight_eq_div_pow]
        exact h28
      rw [hdv] at hdm
      rw [e30] at hdm ⊢
      omega
    · by_cases h29 : mathPacked s >>> 30 = 29
      · refine ⟨mathPacked s, ?_, by rw [hplen]; exact hpts⟩
        rw [henc, encodePenta_high29 _ _ hM35 (by omega) h29,
          decodeCipher_tag3 _ (Nat.mod_lt _ (by positivity))]
        congr 1
        rw [pentas_dollar, Nat.shiftLeft_eq]
        have hdv : mathPacked s / 2 ^ 30 = 29 := by
          rw [← Nat.shiftRight_eq_div_pow]
          exact h29
        rw [hdv] at hdm
        rw [e30] at hdm ⊢
        omega
      · exfalso
        apply hnz
        rw [henc]
        exact encodePenta_high0 _ _ hM35 (by omega) h28 h29

/-- Witness for C1 at the concrete one-letter string A (code 65). -/
theorem c1_roundtrip_witness :
    ∃ penta, decodeCipher (encode (some [65])) = Except.ok penta ∧
      pentaToString penta (plenOf penta 0) = some [65] :=
  c1_roundtrip [65] (by decide) (by decide) (by decide)

/-- C2 counterexample: the cipher 1 is non-zero, yet decodeCipher rejects
it with illegal-argument (its top two bits are 00), so decodeCipher does
not succeed on every non-zero 32-bit cipher. -/
theorem c2_counterexample :
    (1 : Nat) ≠ 0 ∧ decodeCipher 1 = Except.error DxError.illegalArgument := by
  constructor
  · decide
  · decide

/-- C2 amended: for every 32-bit cipher whose top two bits are not 00
(equivalently 2^30 ≤ cipher), decodeCipher succeeds and encodePenta maps
the decoded penta, with plen recovered as the smallest multiple of 5,
back to the original cipher. -/
theorem c2_roundtrip_amended (cipher : Nat) (h32 : cipher < 2 ^ 32) (htag : 2 ^ 30 ≤ cipher) :
    ∃ penta, decodeCipher cipher = Except.ok penta ∧
      encodePenta penta (plenOf penta 0) = cipher := by
  have e30 : (2 : Nat) ^ 30 = 1073741824 := by norm_num
  have hdm := Nat.div_add_mod cipher (2 ^ 30)
  have hxlt : cipher % 2 ^ 30 < 2 ^ 30 := Nat.mod_lt _ (by positivity)
  have hsh : cipher >>> 30 = cipher / 2 ^ 30 := Nat.shiftRight_eq_div_pow _ _
  have ht1 : 1 ≤ cipher / 2 ^ 30 := (Nat.le_div_iff_mul_le (by positivity)).mpr (by omega)
  have ht3 : cipher / 2 ^ 30 < 4 := (Nat.div_lt_iff_lt_mul (by positivity)).mpr (by
    calc cipher < 2 ^ 32 := h32
      _ = 4 * 2 ^ 30 := by norm_num)
  rcases (by omega : cipher / 2 ^ 30 = 1 ∨ cipher / 2 ^ 30 = 2 ∨ cipher / 2 ^ 30 = 3) with
    hv | hv | hv
  · refine ⟨cipher % 2 ^ 30, ?_, ?_⟩
    · have hs : cipher >>> 30 = 1 := by rw [hsh, hv]
      unfold decodeCipher
      rw [hs]
      norm_num
    · have hpl : plenOf (cipher % 2 ^ 30) 0 ≤ 30 := plenOf_le _ 30 0 (by omega) (by omega) hxlt
      rw [encodePenta_low _ _ hpl hxlt]
      rw [hv] at hdm
      rw [e30] at hdm ⊢
      omega
  · refine ⟨pentas 47 <<< 30 + cipher % 2 ^ 30, ?_, ?_⟩
    · have hs : cipher >>> 30 = 2 := by rw [hsh, hv]
      unfold decodeCipher
      rw [hs]
      norm_num
    · rw [pentas_slash, Nat.shiftLeft_eq]
      have hlt35 : 28 * 2 ^ 30 + cipher % 2 ^ 30 < 2 ^ 35 := by
        rw [e30] at hxlt ⊢
        norm_num
        omega
      have hge30 : 2 ^ 30 ≤ 28 * 2 ^ 30 + cipher % 2 ^ 30 := by
        rw [e30]
        omega
      have hplen : plenOf (28 * 2 ^ 30 + cipher % 2 ^ 30) 0 = 35 :=
        plenOf_exact _ 35 0 (by omega) (by omega) hlt35
          (Or.inl (by norm_num at hge30 ⊢; omega))
      have hsr : (28 * 2 ^ 30 + cipher % 2 ^ 30) >>> 30 = 28 := by
        rw [Nat.shiftRight_eq_div_pow, mul_comm,
          Nat.mul_add_div (Nat.pos_pow_of_pos _ (by norm_num)), Nat.div_eq_of_lt hxlt]
      rw [hplen, encodePenta_high28 _ _ hlt35 (by omega) hsr]
      have hm : (28 * 2 ^ 30 + cipher % 2 ^ 30) % 2 ^ 30 = cipher % 2 ^ 30 := by
        rw [mul_comm, Nat.mul_add_mod]
        exact Nat.mod_eq_of_lt hxlt
      rw [hm]
      rw [hv] at hdm
      rw [e30] at hdm ⊢
      omega
  · refine ⟨pentas 36 <<< 30 + cipher % 2 ^ 30, ?_, ?_⟩
    · have hs : cipher >>> 30 = 3 := by rw [hsh, hv]
      unfold decodeCipher
      rw [hs]
      norm_num
    · rw [pentas_dollar, Nat.shiftLeft_eq]
      have hlt35 : 29 * 2 ^ 30 + cipher % 2 ^ 30 < 2 ^ 35 := by
        rw [e30] at hxlt ⊢
        norm_num
        omega
      have hge30 : 2 ^ 30 ≤ 29 * 2 ^ 30 + cipher % 2 ^ 30 := by
        rw [e30]
        omega
      have hplen : plenOf (29 * 2 ^ 30 + cipher % 2 ^ 30) 0 = 35 :=
        plenOf_exact _ 35 0 (by omega) (by omega) hlt35
          (Or.inl (by norm_num at hge30 ⊢; omega))
      have hsr : (29 * 2 ^ 30 + cipher % 2 ^ 30) >>> 30 = 29 := by
        rw [Nat.shiftRight_eq_div_pow, mul_comm,
          Nat.mul_add_div (Nat.pos_pow_of_pos _ (by norm_num)), Nat.div_eq_of_lt hxlt]
      rw [hplen, encodePenta_high29 _ _ hlt35 (by omega) hsr]
      have hm : (29 * 2 ^ 30 + cipher % 2 ^ 30) % 2 ^ 30 = cipher % 2 ^ 30 := by
        rw [mul_comm, Nat.mul_add_mod]
        exact Nat.mod_eq_of_lt hxlt
      rw [hm]
      rw [hv] at hdm
      rw [e30] at hdm ⊢
      omega

/-- Witness for the amended C2 at the concrete cipher 0x40000001. -/
theorem c2_roundtrip_amended_witness :
    ∃ penta, decodeCipher 0x40000001 = Except.ok penta ∧
      encodePenta penta (plenOf penta 0) = 0x40000001 :=
  c2_roundtrip_amended 0x40000001 (by norm_num) (by norm_num)

/-- C5: encode returns 0 on a null symbol, on every symbol longer than 7
characters, and on every symbol containing an ineligible character (a code
point at or above 128, or any character whose table length is the 64
sentinel, which covers the apostrophe, code 39, and the backtick, code 96). -/
theorem c5_encode_zero :
    encode none = 0 ∧ (∀ s : List Nat, 7 < s.length → encode (some s) = 0) ∧
    (∀ (s : List Nat) (c : Nat), c ∈ s → (128 ≤ c ∨ plength c = 64) → encode (some s) = 0) := by
  refine ⟨rfl, ?_, ?_⟩
  · intro s hlen
    simp only [encode]
    rw [if_pos hlen]
  · intro s c hc hbad
    simp only [encode]
    by_cases hlen : 7 < s.length
    · rw [if_pos hlen]
    · rw [if_neg hlen]
      rcases encodeLoop_bad c hbad s hc 0 0 with hnone | ⟨q, m, hsome, hm⟩
      · rw [hnone]
      · rw [hsome]
        show (if 35 < m then 0 else encodePenta q m) = 0
        rw [if_pos (by omega)]

/-- Witness for C5 at the concrete one-character apostrophe symbol. -/
theorem c5_encode_zero_witness : encode (some [39]) = 0 :=
  c5_encode_zero.2.2 [39] 39 (by decide) (by decide)

/-- C4: initSymbolCodec succeeds (the penta counter ends at 0x400), there
are exactly 93 eligible characters, every eligible character below 128 has
table length 5 or 10, a penta in 1..29 or 960..1023, and maps back through
characters; every ineligible character below 128 has the 64 sentinel and
penta 0; every penta in the range maps to an eligible character that maps
back; and pentas 0, 30 and 31 are assigned to no character. -/
theorem c4_init_bijection :
    initNext = 0x400 ∧ initSymbolCodec = Except.ok tables ∧
    (List.range 128).countP (fun c => plength c != 64) = 93 ∧
    (∀ c, c < 128 → plength c ≠ 64 →
      (plength c = 5 ∨ plength c = 10) ∧ characters (pentas c) = c ∧
      ((1 ≤ pentas c ∧ pentas c ≤ 29) ∨ (960 ≤ pentas c ∧ pentas c ≤ 1023))) ∧
    (∀ c, c < 128 → plength c = 64 → pentas c = 0) ∧
    (∀ q, q < 29 → characters (q + 1) < 128 ∧ plength (characters (q + 1)) ≠ 64 ∧
      pentas (characters (q + 1)) = q + 1) ∧
    (∀ q, q < 64 → characters (q + 960) < 128 ∧ plength (characters (q + 960)) ≠ 64 ∧
      pentas (characters (q + 960)) = q + 960) ∧
    characters 0 = 0 ∧ characters 30 = 0 ∧ characters 31 = 0 := by
  refine ⟨by decide, ?_, by decide, by decide, by decide, by decide, by decide, by decide,
    by decide, by decide⟩
  unfold initSymbolCodec
  rw [if_neg (by decide)]

/-- Witness for C4 at the concrete character A (code 65) and penta 1. -/
theorem c4_init_bijection_witness :
    (characters (pentas 65) = 65 ∧ (1 ≤ pentas 65 ∧ pentas 65 ≤ 29) ∨
      (960 ≤ pentas 65 ∧ pentas 65 ≤ 1023)) ∧ characters 1 < 128 ∧ pentas (characters 1) = 1 := by
  have h1 := c4_init_bijection.2.2.2.1 65 (by decide) (by decide)
  have h2 := c4_init_bijection.2.2.2.2.2.1 0 (by decide)
  exact ⟨Or.inl ⟨h1.2.1, by rcases h1.2.2 with h | h; exact h; exact absurd h.1 (by decide)⟩,
    h2.1, h2.2.2⟩

/-- C6 counterexample: the five wire bytes F0 40 00 00 00 select the 35-bit
penta tier with penta 2^30; its recovered plen is 35, the top five bits are
1 (neither 28 nor 29), so encodePenta returns 0 and readSymbol takes the
fallback branch, storing a string and returning cipher 0.  The fallback is
therefore reachable by a plain byte sequence. -/
theorem c6_counterexample :
    (readSymbol listSource 0 [0xF0, 0x40, 0x00, 0x00, 0x00]).1 =
      Except.ok (0, some (some [])) ∧
    encodePenta (2 ^ 30) (plenOf (2 ^ 30) 0) = 0 := by
  constructor
  · rw [readSymbol_as_dispatch,
      show (listSource.readUnsignedByte [0xF0, 0x40, 0x00, 0x00, 0x00]).1 = 0xF0 from rfl,
      show (listSource.readUnsignedByte [0xF0, 0x40, 0x00, 0x00, 0x00]).2 =
        [0x40, 0x00, 0x00, 0x00] from rfl,
      readDispatch_tier35 _ _ _ _ (by norm_num) (by norm_num),
      show ((0xF0 &&& 0x07) <<< 32) +
        (((listSource.readInt [0x40, 0x00, 0x00, 0x00]).1 % (4294967296 : Int)).toNat) =
        2 ^ 30 from by decide,
      show (listSource.readInt [0x40, 0x00, 0x00, 0x00]).2 = ([] : List Nat) from rfl,
      finishPenta_pow30]
  · rw [plenOf_pow30]
    exact encodePenta_pow30

/-- C6 amended: for a well-formed source, every first byte selecting the
15-bit, 30-bit or 20-bit penta tiers or the empty symbol (bytes below 0xC0,
bytes 0xE0 to 0xEF, and 0xFE) makes readSymbol return a non-zero cipher
with the result slot untouched, so the fallback branch is unreachable from
those tiers; the 35-bit tier 0xF0..0xF7 can reach it. -/
theorem c6_tiers_amended {σ : Type} (src : BufferedInput σ) (hwf : WellFormed src)
    (bufLen : Nat) (s0 : σ)
    (htier : (src.readUnsignedByte s0).1 < 0xC0 ∨
      (0xE0 ≤ (src.readUnsignedByte s0).1 ∧ (src.readUnsignedByte s0).1 < 0xF0) ∨
      (src.readUnsignedByte s0).1 = 0xFE) :
    ∃ cipher, (readSymbol src bufLen s0).1 = Except.ok (cipher, none) ∧ cipher ≠ 0 :=
  readDispatch_tier_ok src hwf bufLen _ _ htier

/-- Witness for the amended C6 at the concrete two-byte input 00 01. -/
theorem c6_tiers_amended_witness :
    (listSource.readUnsignedByte [0x00, 0x01]).1 < 0xC0 ∧
    ∃ cipher, (readSymbol listSource 0 [0x00, 0x01]).1 = Except.ok (cipher, none) ∧
      cipher ≠ 0 :=
  ⟨by decide, c6_tiers_amended listSource listSource_wf 0 [0x00, 0x01] (Or.inl (by decide))⟩

/-- C7: in the CESU-8 branch (first byte 0xFD), after the compact-long
length is read: a length below -1 or above the maximum 32-bit signed
integer fails with illegal-length, length -1 stores null and returns 0,
length 0 stores the empty string and returns 0, and in all three cases the
source is left exactly at the state after the length read, so no character
is consumed. -/
theorem c7_cesu_sentinels {σ : Type} (src : BufferedInput σ) (bufLen : Nat) (s0 s1 s2 : σ)
    (len : Int) (hb : src.readUnsignedByte s0 = (0xFD, s1))
    (hl : src.readCompactLong s1 = (len, s2)) :
    ((len < -1 ∨ (2147483647 : Int) < len) →
      readSymbol src bufLen s0 = (Except.error SymErr.illegalLength, s2)) ∧
    (len = -1 → readSymbol src bufLen s0 = (Except.ok (0, some none), s2)) ∧
    (len = 0 → readSymbol src bufLen s0 = (Except.ok (0, some (some [])), s2)) := by
  have h1 : readSymbol src bufLen s0 = readCesu src bufLen len s2 := by
    unfold readSymbol
    rw [hb]
    show readDispatch src bufLen 0xFD s1 = _
    rw [readDispatch_cesu, hl]
  rw [h1]
  exact readCesu_sentinels src bufLen len s2

/-- Witness for C7 at the concrete input FD with length 0. -/
theorem c7_cesu_sentinels_witness :
    listSource.readUnsignedByte [0xFD] = (0xFD, []) ∧
    readSymbol listSource 0 [0xFD] = (Except.ok (0, some (some [])), []) :=
  ⟨by decide,
    (c7_cesu_sentinels listSource 0 [0xFD] [] [] 0 (by decide) (by decide)).2.2 rfl⟩

/-- C8: whenever readSymbol returns a non-zero cipher, the result slot was
never written; the slot is written only on paths that return 0. -/
theorem c8_frame {σ : Type} (src : BufferedInput σ) (bufLen : Nat) (s0 : σ)
    (r : Nat × ResultSlot) (hr : (readSymbol src bufLen s0).1 = Except.ok r) (hnz : r.1 ≠ 0) :
    r.2 = none :=
  readDispatch_frame src bufLen _ _ r hr hnz

/-- Witness for C8 at the concrete two-byte input 00 01. -/
theorem c8_frame_witness :
    (readSymbol listSource 0 [0x00, 0x01]).1 = Except.ok (0x40000001, none) ∧
    ((0x40000001 : Nat), (none : ResultSlot)).2 = none := by
  have hr : (readSymbol listSource 0 [0x00, 0x01]).1 = Except.ok (0x40000001, none) := by
    rw [readSymbol_as_dispatch,
      show (listSource.readUnsignedByte [0x00, 0x01]).1 = 0x00 from rfl,
      show (listSource.readUnsignedByte [0x00, 0x01]).2 = [0x01] from rfl,
      readDispatch_tier15 _ _ _ _ (by norm_num),
      show ((0x00 : Nat) <<< 8) + (listSource.readUnsignedByte [0x01]).1 = 1 from rfl,
      show (listSource.readUnsignedByte [0x01]).2 = ([] : List Nat) from rfl,
      finishPenta_one]
  exact ⟨hr, c8_frame listSource 0 [0x00, 0x01] (0x40000001, none) hr (by norm_num)⟩

/-- C9: the claim fails on the code.  The initializer of the global
WILDCARD_CIPHER runs at static-initialization time over the
zero-initialized tables and initSymbolCodec never reassigns it, so after
initialization the global holds 0x40000000, the empty-symbol cipher,
while encode of the star symbol (code 42) over the initialized tables is
0x400003C8; the two differ.  The star is indeed an eligible 10-bit penta,
so the spec states the intent and the code is the slip, as the source
comment (need initialize in init function) itself records. -/
theorem c9_wildcard_static_init :
    WILDCARD_CIPHER = 0x40000000 ∧ encode (some [42]) = 0x400003C8 ∧
    WILDCARD_CIPHER ≠ encode (some [42]) ∧ plength 42 = 10 :=
  ⟨by decide, by decide, by decide, by decide⟩

/-- C10: the empty symbol has two accepted wire forms: the two bytes 00 00
(15-bit tier with zero payload) and the single byte FE both make readSymbol
return the cipher 0x40000000 of the empty penta with the slot untouched,
so the two encodings cannot be told apart from the returned value. -/
theorem c10_empty_two_forms :
    (readSymbol listSource 0 [0x00, 0x00]).1 = Except.ok (0x40000000, none) ∧
    (readSymbol listSource 0 [0xFE]).1 = Except.ok (0x40000000, none) := by
  constructor
  · rw [readSymbol_as_dispatch,
      show (listSource.readUnsignedByte [0x00, 0x00]).1 = 0x00 from rfl,
      show (listSource.readUnsignedByte [0x00, 0x00]).2 = [0x00] from rfl,
      readDispatch_tier15 _ _ _ _ (by norm_num),
      show ((0x00 : Nat) <<< 8) + (listSource.readUnsignedByte [0x00]).1 = 0 from rfl,
      show (listSource.readUnsignedByte [0x00]).2 = ([] : List Nat) from rfl,
      finishPenta_zero]
  · rw [readSymbol_as_dispatch,
      show (listSource.readUnsignedByte [0xFE]).1 = 0xFE from rfl,
      show (listSource.readUnsignedByte [0xFE]).2 = ([] : List Nat) from rfl,
      readDispatch_tierFE, finishPenta_zero]

end SymbolCodec
